import Mathlib

/-!
Verification development for the Farcaster mini-app repository's account
association generator (`scripts/generate-farcaster-auth.js`), the standalone
verifier (`scripts/verify-farcaster-signature.js`) and the placeholder
generator variant (`updateManifest` and friends).

Bytes are modelled as `Nat` values below 256 (`Uint8Array` contents), byte
sequences as `List Nat`, and JavaScript strings as Lean `String`.  Fallible
or process-exiting paths are modelled with `Option`.  The JavaScript
built-ins the scripts rely on (`parseInt`, `Uint8Array` element coercion,
Buffer base64 and UTF-8 codecs, `JSON.parse` / `JSON.stringify`) are given
faithful executable models; the semantics they follow are spelled out in
their doc comments.
-/

/-- JavaScript whitespace characters skipped by `parseInt` (the common ones;
the scripts only ever pass strings built from hex digits and punctuation). -/
def jsIsWhitespace (c : Char) : Bool :=
  c = ' ' || c = '\t' || c = '\n' || c = '\r'

/-- Is `c` one of the hexadecimal digits accepted by `parseInt(_, 16)`. -/
def isHexDigitJs (c : Char) : Bool :=
  ('0' ≤ c && c ≤ '9') || ('a' ≤ c && c ≤ 'f') || ('A' ≤ c && c ≤ 'F')

/-- Numeric value of a hexadecimal digit. -/
def hexDigitVal (c : Char) : Nat :=
  if '0' ≤ c && c ≤ '9' then c.toNat - '0'.toNat
  else if 'a' ≤ c && c ≤ 'f' then c.toNat - 'a'.toNat + 10
  else c.toNat - 'A'.toNat + 10

/-- Is `c` a decimal digit. -/
def isDecDigitJs (c : Char) : Bool :=
  '0' ≤ c && c ≤ '9'

/-- Accumulate the longest prefix of digits (as selected by `isDig`, valued
by `val`) in base `base`; `none` when there is no digit at all (`NaN`). -/
def parseDigits (isDig : Char → Bool) (val : Char → Nat) (base : Nat) :
    List Char → Option Nat
  | [] => none
  | c :: cs =>
    if isDig c then
      some ((c :: cs).takeWhile isDig |>.foldl (fun a d => a * base + val d) 0)
    else none

/-- Model of JavaScript `parseInt(s, 16)`: skip leading whitespace, read an
optional sign, skip an optional `0x`/`0X`, then parse the longest prefix of
hexadecimal digits; `none` models `NaN`. -/
def parseIntHex (s : String) : Option Int :=
  let cs := s.toList.dropWhile jsIsWhitespace
  let (sign, cs) : Int × List Char :=
    match cs with
    | '-' :: rest => (-1, rest)
    | '+' :: rest => (1, rest)
    | rest => (1, rest)
  let cs := match cs with
    | '0' :: 'x' :: rest => rest
    | '0' :: 'X' :: rest => rest
    | rest => rest
  (parseDigits isHexDigitJs hexDigitVal 16 cs).map (fun n => sign * n)

/-- Model of JavaScript `parseInt(s)` with no radix argument: skip leading
whitespace, read an optional sign, then parse hexadecimal after a `0x`/`0X`
prefix and decimal otherwise; `none` models `NaN`. -/
def parseIntAuto (s : String) : Option Int :=
  let cs := s.toList.dropWhile jsIsWhitespace
  let (sign, cs) : Int × List Char :=
    match cs with
    | '-' :: rest => (-1, rest)
    | '+' :: rest => (1, rest)
    | rest => (1, rest)
  match cs with
  | '0' :: 'x' :: rest => (parseDigits isHexDigitJs hexDigitVal 16 rest).map (sign * ·)
  | '0' :: 'X' :: rest => (parseDigits isHexDigitJs hexDigitVal 16 rest).map (sign * ·)
  | rest => (parseDigits isDecDigitJs (fun c => c.toNat - '0'.toNat) 10 rest).map (sign * ·)

/-- Storing a number into a `Uint8Array` element: `NaN` becomes 0, other
values are truncated and reduced modulo 2^8 (`ToUint8`). -/
def toUint8 : Option Int → Nat
  | none => 0
  | some i => (i % 256).toNat

/-- Character-list form of `s.replace(/^0x/, '')`. -/
def strip0xChars : List Char → List Char
  | '0' :: 'x' :: rest => rest
  | cs => cs

/-- Model of `s.replace(/^0x/, '')`: drops one literal leading `0x`
(case-sensitive, at most once). -/
def strip0x (s : String) : String :=
  String.mk (strip0xChars s.toList)

/-- Loop body of `hexToBytes` over the character list: each iteration reads
`substr(i, 2)` and stores `toUint8(parseInt(chunk, 16))` at index `i / 2`.
A trailing single character is parsed but its store lands one past the end
of the `Uint8Array` (whose length is the truncation of `length / 2`), and
out-of-range stores on a typed array are silently dropped. -/
def hexPairsToBytes : List Char → List Nat
  | c1 :: c2 :: rest => toUint8 (parseIntHex (String.mk [c1, c2])) :: hexPairsToBytes rest
  | [_] => []
  | [] => []

/-- Model of `hexToBytes` from both scripts: strips an optional `0x` prefix
and converts 2-character chunks via `parseInt(_, 16)` into bytes.  The
function is total: fractional `Uint8Array` lengths are truncated by
`ToIndex` (ES2017+), non-digit chunks parse to `NaN` and store 0, and the
out-of-bounds store of a trailing odd nibble is ignored. -/
def hexToBytes (hex : String) : List Nat :=
  hexPairsToBytes (strip0xChars hex.toList)

/-- Character for a nibble, as produced by `Number.prototype.toString(16)`
(lowercase). -/
def nibbleChar (n : Nat) : Char :=
  if n < 10 then Char.ofNat ('0'.toNat + n) else Char.ofNat ('a'.toNat + (n - 10))

/-- Two lowercase hex characters for a byte: `byte.toString(16).padStart(2, '0')`
for the byte values 0..255 that a `Uint8Array` yields. -/
def byteHexChars (b : Nat) : List Char :=
  [nibbleChar (b / 16 % 16), nibbleChar (b % 16)]

/-- Character list of `bytesToHex`. -/
def bytesToHexChars : List Nat → List Char
  | [] => []
  | b :: rest => byteHexChars b ++ bytesToHexChars rest

/-- Model of `bytesToHex` from the generator: lowercase, no prefix, each
byte zero-padded to 2 characters. -/
def bytesToHex (bytes : List Nat) : String :=
  String.mk (bytesToHexChars bytes)

/-- The base64 alphabet used by `Buffer`'s `base64` codec. -/
def base64Alphabet : List Char :=
  "ABCDEFGHIJKLMNOPQRSTUVWXYZabcdefghijklmnopqrstuvwxyz0123456789+/".toList

/-- Character encoding a 6-bit group. -/
def sextetChar (n : Nat) : Char := base64Alphabet.getD n 'A'

/-- Decode one base64 character; `none` for characters outside the alphabet. -/
def charSextet (c : Char) : Option Nat := base64Alphabet.indexOf? c

/-- Base64-encode bytes three at a time, padding with `=` as
`Buffer.prototype.toString('base64')` does. -/
def base64EncodeChars : List Nat → List Char
  | b1 :: b2 :: b3 :: rest =>
    sextetChar (b1 / 4) :: sextetChar (b1 % 4 * 16 + b2 / 16) ::
      sextetChar (b2 % 16 * 4 + b3 / 64) :: sextetChar (b3 % 64) ::
      base64EncodeChars rest
  | [b1, b2] => [sextetChar (b1 / 4), sextetChar (b1 % 4 * 16 + b2 / 16),
      sextetChar (b2 % 16 * 4), '=']
  | [b1] => [sextetChar (b1 / 4), sextetChar (b1 % 4 * 16), '=', '=']
  | [] => []

/-- Model of `Buffer.from(bytes).toString('base64')`. -/
def base64Encode (bytes : List Nat) : String := String.mk (base64EncodeChars bytes)

/-- Collect the 6-bit groups of a base64 string the way Node's forgiving
decoder does: characters outside the alphabet are skipped and a `=`
terminates the data. -/
def base64Sextets : List Char → List Nat
  | [] => []
  | c :: cs =>
    if c = '=' then []
    else
      match charSextet c with
      | some v => v :: base64Sextets cs
      | none => base64Sextets cs

/-- Reassemble bytes from 6-bit groups four at a time; a leftover group of
fewer than 8 bits is dropped, as in Node's decoder. -/
def sextetsToBytes : List Nat → List Nat
  | s1 :: s2 :: s3 :: s4 :: rest =>
    (s1 * 4 + s2 / 16) :: (s2 % 16 * 16 + s3 / 4) :: (s3 % 4 * 64 + s4) ::
      sextetsToBytes rest
  | [s1, s2, s3] => [s1 * 4 + s2 / 16, s2 % 16 * 16 + s3 / 4]
  | [s1, s2] => [s1 * 4 + s2 / 16]
  | [_] => []
  | [] => []

/-- Model of `Buffer.from(s, 'base64')`: never throws; invalid characters
are ignored, `=` ends the data, leftover bits are discarded. -/
def base64Decode (s : String) : List Nat := sextetsToBytes (base64Sextets s.toList)

/-- UTF-8 encoding of one code point (what `TextEncoder` and `Buffer.from`
produce). -/
def utf8EncodeChar (c : Char) : List Nat :=
  let n := c.toNat
  if n < 0x80 then [n]
  else if n < 0x800 then [0xC0 + n / 64, 0x80 + n % 64]
  else if n < 0x10000 then [0xE0 + n / 4096, 0x80 + n / 64 % 64, 0x80 + n % 64]
  else [0xF0 + n / 262144, 0x80 + n / 4096 % 64, 0x80 + n / 64 % 64, 0x80 + n % 64]

/-- UTF-8 encoding of a character list. -/
def utf8EncodeList : List Char → List Nat
  | [] => []
  | c :: cs => utf8EncodeChar c ++ utf8EncodeList cs

/-- Model of `new TextEncoder().encode(s)` / `Buffer.from(s)` as a byte list. -/
def utf8Encode (s : String) : List Nat := utf8EncodeList s.toList

/-- The replacement character emitted for malformed byte sequences. -/
def replacementChar : Char := Char.ofNat 0xFFFD

/-- Is `b` a UTF-8 continuation byte. -/
def isUtf8Cont (b : Nat) : Bool := 0x80 ≤ b && b < 0xC0

/-- UTF-8 decoding of a byte list, with malformed sequences mapped to the
replacement character; sufficient for the byte sequences arising here (it
does not reproduce every replacement-placement detail of WHATWG decoding on
pathological input).  The fuel argument only serves structural recursion;
each step consumes at least one byte, so `bytes.length` is always enough. -/
def utf8DecodeGo : Nat → List Nat → List Char
  | 0, _ => []
  | _, [] => []
  | fuel + 1, b :: rest =>
    if b < 0x80 then Char.ofNat b :: utf8DecodeGo fuel rest
    else if b < 0xC2 then replacementChar :: utf8DecodeGo fuel rest
    else if b < 0xE0 then
      match rest with
      | b2 :: r2 =>
        if isUtf8Cont b2 then
          Char.ofNat ((b - 0xC0) * 64 + (b2 - 0x80)) :: utf8DecodeGo fuel r2
        else replacementChar :: utf8DecodeGo fuel rest
      | [] => [replacementChar]
    else if b < 0xF0 then
      match rest with
      | b2 :: b3 :: r3 =>
        if isUtf8Cont b2 && isUtf8Cont b3 then
          Char.ofNat ((b - 0xE0) * 4096 + (b2 - 0x80) * 64 + (b3 - 0x80)) ::
            utf8DecodeGo fuel r3
        else replacementChar :: utf8DecodeGo fuel rest
      | _ => [replacementChar]
    else
      match rest with
      | b2 :: b3 :: b4 :: r4 =>
        if isUtf8Cont b2 && isUtf8Cont b3 && isUtf8Cont b4 then
          Char.ofNat ((b - 0xF0) * 262144 + (b2 - 0x80) * 4096 +
              (b3 - 0x80) * 64 + (b4 - 0x80)) :: utf8DecodeGo fuel r4
        else replacementChar :: utf8DecodeGo fuel rest
      | _ => [replacementChar]

/-- Model of `buffer.toString('utf-8')`. -/
def utf8Decode (bytes : List Nat) : String :=
  String.mk (utf8DecodeGo bytes.length bytes)

/-- JSON values as they occur in this system.  Numbers are restricted to
integers, which covers every document the scripts produce or consume (fids
and the manifest fields); the `JSON.parse` model below rejects fractional
literals instead of representing them. -/
inductive Json where
  | null : Json
  | bool (b : Bool) : Json
  | num (n : Int) : Json
  | str (s : String) : Json
  | arr (elems : List Json) : Json
  | obj (fields : List (String × Json)) : Json

/-- JavaScript truthiness of a JSON value (`!value` negated). -/
def jsTruthy : Json → Bool
  | .null => false
  | .bool b => b
  | .num n => n != 0
  | .str s => s != ""
  | .arr _ => true
  | .obj _ => true

/-- Property read on an object's field list (first matching key; objects
coming from `JSON.parse` have unique keys). -/
def lookupField : List (String × Json) → String → Option Json
  | [], _ => none
  | (k, v) :: rest, key => if k = key then some v else lookupField rest key

/-- Property read `value.key`: `none` models `undefined` (also for reads on
non-objects, where the scripts only ever hit absent properties). -/
def Json.getField : Json → String → Option Json
  | .obj fields, key => lookupField fields key
  | _, _ => none

/-- Property assignment on an object's field list: replaces the value in
place when the key exists, appends a new field otherwise. -/
def setField : List (String × Json) → String → Json → List (String × Json)
  | [], key, v => [(key, v)]
  | (k, w) :: rest, key, v =>
    if k = key then (key, v) :: rest else (k, w) :: setField rest key v

/-- Escape one character for a JSON string literal, as `JSON.stringify`
does. -/
def escapeJsonChar (c : Char) : List Char :=
  if c = '"' then ['\\', '"']
  else if c = '\\' then ['\\', '\\']
  else if c = '\n' then ['\\', 'n']
  else if c = '\r' then ['\\', 'r']
  else if c = '\t' then ['\\', 't']
  else if c.toNat = 8 then ['\\', 'b']
  else if c.toNat = 12 then ['\\', 'f']
  else if c.toNat < 0x20 then
    ['\\', 'u', '0', '0', nibbleChar (c.toNat / 16), nibbleChar (c.toNat % 16)]
  else [c]

/-- Escape a character list for a JSON string literal. -/
def escapeJsonChars : List Char → List Char
  | [] => []
  | c :: cs => escapeJsonChar c ++ escapeJsonChars cs

/-- JSON string literal (with quotes) for `s`. -/
def jsonStringLit (s : String) : List Char :=
  '"' :: escapeJsonChars s.toList ++ ['"']

mutual

/-- Character list of `JSON.stringify(v)` (compact form, no spacing; key
order is the construction order, as for JavaScript objects). -/
def jsonStringifyChars : Json → List Char
  | .null => "null".toList
  | .bool b => (if b then "true" else "false").toList
  | .num n => (toString n).toList
  | .str s => jsonStringLit s
  | .arr es => '[' :: jsonArrayChars es ++ [']']
  | .obj fs => '{' :: jsonObjChars fs ++ ['}']

/-- Comma-separated stringification of array elements. -/
def jsonArrayChars : List Json → List Char
  | [] => []
  | [e] => jsonStringifyChars e
  | e :: e2 :: rest => jsonStringifyChars e ++ ',' :: jsonArrayChars (e2 :: rest)

/-- Comma-separated stringification of object fields. -/
def jsonObjChars : List (String × Json) → List Char
  | [] => []
  | [(k, v)] => jsonStringLit k ++ ':' :: jsonStringifyChars v
  | (k, v) :: f2 :: rest =>
    jsonStringLit k ++ ':' :: jsonStringifyChars v ++ ',' :: jsonObjChars (f2 :: rest)

end

/-- Model of `JSON.stringify(v)` with no spacing argument. -/
def jsonStringify (v : Json) : String := String.mk (jsonStringifyChars v)

/-- JSON insignificant whitespace. -/
def skipJsonWs (cs : List Char) : List Char :=
  cs.dropWhile (fun c => c = ' ' || c = '\t' || c = '\n' || c = '\r')

/-- Parse the body of a JSON string literal (after the opening quote),
returning the string and the remaining input.  Handles the standard
escapes; a `\u` escape takes four hex digits (surrogate pairs are not
recombined — the documents here never use them). -/
def parseJsonStringBody : List Char → Option (List Char × List Char)
  | [] => none
  | '"' :: rest => some ([], rest)
  | '\\' :: e :: rest =>
    match e with
    | '"' => (parseJsonStringBody rest).map (fun (s, r) => ('"' :: s, r))
    | '\\' => (parseJsonStringBody rest).map (fun (s, r) => ('\\' :: s, r))
    | '/' => (parseJsonStringBody rest).map (fun (s, r) => ('/' :: s, r))
    | 'n' => (parseJsonStringBody rest).map (fun (s, r) => ('\n' :: s, r))
    | 'r' => (parseJsonStringBody rest).map (fun (s, r) => ('\r' :: s, r))
    | 't' => (parseJsonStringBody rest).map (fun (s, r) => ('\t' :: s, r))
    | 'b' => (parseJsonStringBody rest).map (fun (s, r) => (Char.ofNat 8 :: s, r))
    | 'f' => (parseJsonStringBody rest).map (fun (s, r) => (Char.ofNat 12 :: s, r))
    | 'u' =>
      match rest with
      | h1 :: h2 :: h3 :: h4 :: r4 =>
        if isHexDigitJs h1 && isHexDigitJs h2 && isHexDigitJs h3 && isHexDigitJs h4 then
          (parseJsonStringBody r4).map (fun (s, r) =>
            (Char.ofNat (hexDigitVal h1 * 4096 + hexDigitVal h2 * 256 +
              hexDigitVal h3 * 16 + hexDigitVal h4) :: s, r))
        else none
      | _ => none
    | _ => none
  | c :: rest =>
    if c.toNat < 0x20 then none
    else (parseJsonStringBody rest).map (fun (s, r) => (c :: s, r))

/-- Parse a JSON integer literal (optional minus, digits).  Fractional and
exponent forms are rejected rather than represented, matching the
restriction of the `Json` type; no document this system reads or writes
contains them.  (The model is also lax about a leading zero, which real
`JSON.parse` rejects — again unreachable for the documents here.) -/
def parseJsonNumber (cs : List Char) : Option (Int × List Char) :=
  let (sign, cs2) : Int × List Char :=
    match cs with
    | '-' :: rest => (-1, rest)
    | rest => (1, rest)
  match parseDigits isDecDigitJs (fun c => c.toNat - '0'.toNat) 10 cs2 with
  | none => none
  | some n =>
    let rest := cs2.dropWhile isDecDigitJs
    match rest with
    | '.' :: _ => none
    | 'e' :: _ => none
    | 'E' :: _ => none
    | _ => some (sign * n, rest)

mutual

/-- Parse one JSON value; `fuel` only bounds nesting-and-sequence recursion
and is chosen large enough at the entry point. -/
def parseJsonValue : Nat → List Char → Option (Json × List Char)
  | 0, _ => none
  | fuel + 1, cs =>
    match skipJsonWs cs with
    | 'n' :: 'u' :: 'l' :: 'l' :: r => some (.null, r)
    | 't' :: 'r' :: 'u' :: 'e' :: r => some (.bool true, r)
    | 'f' :: 'a' :: 'l' :: 's' :: 'e' :: r => some (.bool false, r)
    | '"' :: r => (parseJsonStringBody r).map (fun (s, r2) => (.str (String.mk s), r2))
    | '[' :: r =>
      match skipJsonWs r with
      | ']' :: r2 => some (.arr [], r2)
      | r2 => parseJsonElems fuel r2 []
    | '{' :: r =>
      match skipJsonWs r with
      | '}' :: r2 => some (.obj [], r2)
      | r2 => parseJsonMembers fuel r2 []
    | r => (parseJsonNumber r).map (fun (n, r2) => (.num n, r2))

/-- Parse the elements of a non-empty JSON array (after `[`), accumulating
in reverse. -/
def parseJsonElems : Nat → List Char → List Json → Option (Json × List Char)
  | 0, _, _ => none
  | fuel + 1, cs, acc =>
    match parseJsonValue fuel cs with
    | none => none
    | some (v, r) =>
      match skipJsonWs r with
      | ',' :: r2 => parseJsonElems fuel r2 (v :: acc)
      | ']' :: r2 => some (.arr (v :: acc).reverse, r2)
      | _ => none

/-- Parse the members of a non-empty JSON object (after `{`), accumulating
in reverse. -/
def parseJsonMembers : Nat → List Char → List (String × Json) → Option (Json × List Char)
  | 0, _, _ => none
  | fuel + 1, cs, acc =>
    match skipJsonWs cs with
    | '"' :: r =>
      match parseJsonStringBody r with
      | none => none
      | some (k, r2) =>
        match skipJsonWs r2 with
        | ':' :: r3 =>
          match parseJsonValue fuel r3 with
          | none => none
          | some (v, r4) =>
            match skipJsonWs r4 with
            | ',' :: r5 => parseJsonMembers fuel r5 ((String.mk k, v) :: acc)
            | '}' :: r5 => some (.obj ((String.mk k, v) :: acc).reverse, r5)
            | _ => none
        | _ => none
    | _ => none

end

/-- Model of `JSON.parse(s)`: parse one value and require only whitespace
after it; `none` models a thrown `SyntaxError`. -/
def jsonParse (s : String) : Option Json :=
  match parseJsonValue (2 * s.length + 8) s.toList with
  | none => none
  | some (v, rest) => if skipJsonWs rest = [] then some v else none

/-- Order of the prime-order subgroup of Curve25519 (the `l` of Ed25519),
over which all Ed25519 scalar arithmetic works. -/
def edOrder : Nat := 2 ^ 252 + 27742317777372353535851937790883648493

instance : NeZero edOrder := ⟨by decide⟩

/-- Scalars modulo the subgroup order. -/
abbrev EdScalar := ZMod edOrder

/-- Little-endian byte rendering of `n`, `k` bytes wide. -/
def natToBytesLE : Nat → Nat → List Nat
  | 0, _ => []
  | k + 1, n => n % 256 :: natToBytesLE k (n / 256)

/-- Little-endian byte reading. -/
def bytesToNatLE : List Nat → Nat
  | [] => 0
  | b :: rest => b + 256 * bytesToNatLE rest

/-- 32-byte little-endian encoding of a scalar (and, through the subgroup
isomorphism, of a curve point). -/
def encodeScalar (x : EdScalar) : List Nat := natToBytesLE 32 x.val

/-- Little-endian decoding of bytes into a scalar. -/
def decodeScalar (l : List Nat) : EdScalar := (bytesToNatLE l : EdScalar)

/-- Signature-engine interface the scripts consume from the `@noble/ed25519`
module: public-key derivation, signing and verification over byte
sequences. -/
structure EdEngine where
  getPublicKey : List Nat → List Nat
  sign : List Nat → List Nat → List Nat
  verify : List Nat → List Nat → List Nat → Bool

/-- Modelled from the spec: the `@noble/ed25519` library the scripts import
is not part of this repository's sources, so the Ed25519 engine is modelled
from the specification's description of the scheme (§4.3): deterministic
key derivation, `sign` producing a 64-byte signature `R ‖ S` with
`S = r + H(R ‖ A ‖ m)·s` over the subgroup order, and `verify` checking the
Ed25519 verification equation `S·B = R + H(R ‖ A ‖ m)·A`.  The prime-order
subgroup, cyclic of order `edOrder`, is represented through its group
isomorphism with `EdScalar` (a point is its discrete logarithm of the base
point, encoded in 32 little-endian bytes), and `H` — SHA-512 reduced to a
scalar in the real library — is an arbitrary function parameter, so that
everything proved below holds whatever hash is plugged in.  Inputs of wrong
length make `verify` false (the library throws; both call sites catch and
treat it as failed verification). -/
def nobleEd (H : List Nat → Nat) : EdEngine where
  getPublicKey priv := encodeScalar (H priv : EdScalar)
  sign msg priv :=
    let s : EdScalar := (H priv : EdScalar)
    let encA := encodeScalar s
    let r : EdScalar := (H (priv ++ msg) : EdScalar)
    let encR := encodeScalar r
    let h : EdScalar := (H (encR ++ encA ++ msg) : EdScalar)
    encR ++ encodeScalar (r + h * s)
  verify sig msg pub :=
    if sig.length = 64 && pub.length = 32 then
      let encR := sig.take 32
      let s2 := decodeScalar (sig.drop 32)
      let a := decodeScalar pub
      let h : EdScalar := (H (encR ++ pub ++ msg) : EdScalar)
      decide (s2 = decodeScalar encR + h * a)
    else false

/-- An account association as persisted: the three base64 strings. -/
structure Assoc where
  header : String
  payload : String
  signature : String
deriving DecidableEq, Repr

/-- The association rendered as the JSON sub-object written into the
manifest. -/
def assocToJson (a : Assoc) : Json :=
  .obj [("header", .str a.header), ("payload", .str a.payload),
    ("signature", .str a.signature)]

/-- Model of `decodeBase64` from the verifier: base64-decode (never throws),
UTF-8 decode, then `JSON.parse`; `none` models the caught parse error
(`null`). -/
def decodeBase64 (s : String) : Option Json :=
  jsonParse (utf8Decode (base64Decode s))

/-- The environment-supplied configuration (`FARCASTER_FID`,
`FARCASTER_PRIVATE_KEY`, `FARCASTER_DOMAIN`); `none` models an unset
variable.  The manifest path only selects which file is read and written
and plays no role in the logic. -/
structure Config where
  fid : Option String
  privateKey : Option String
  domain : Option String
deriving DecidableEq, Repr

/-- The configuration after `validateConfig` succeeded: all three values
present, with the domain's protocol prefix stripped in place. -/
structure ValidConfig where
  fid : String
  privateKey : String
  domain : String
deriving DecidableEq, Repr

/-- Is the private key, after stripping one `0x`, accepted by
`/^[a-fA-F0-9]{64}$/`. -/
def isHex64 (s : String) : Bool :=
  s.length = 64 && s.toList.all isHexDigitJs

/-- Model of `config.domain.replace(/^https?:\/\//, '')`: drops one leading
`http://` or `https://`. -/
def stripProto (s : String) : String :=
  match s.toList with
  | 'h' :: 't' :: 't' :: 'p' :: ':' :: '/' :: '/' :: rest => String.mk rest
  | 'h' :: 't' :: 't' :: 'p' :: 's' :: ':' :: '/' :: '/' :: rest => String.mk rest
  | _ => s

/-- Model of `validateConfig` from the real-signature generator: missing
(unset or empty) variables, a fid on which `parseInt` is `NaN`, or a private
key that is not 64 hex characters after an optional `0x`, each abort the
process (`none`); otherwise the domain is normalized by stripping one
protocol prefix. -/
def validateConfig (cfg : Config) : Option ValidConfig :=
  match cfg.fid, cfg.privateKey, cfg.domain with
  | some fid, some pk, some domain =>
    if fid = "" || pk = "" || domain = "" then none
    else if (parseIntAuto fid).isNone then none
    else if !isHex64 (strip0x pk) then none
    else some ⟨fid, pk, stripProto domain⟩
  | _, _, _ => none

/-- Model of `createHeader`: base64 of the compact JSON
`{fid: parseInt(fid), type: 'custody', key: '0x' + bytesToHex(publicKey)}`
(a `NaN` fid would stringify as `null`; validation prevents it). -/
def createHeader (fid : String) (publicKey : List Nat) : String :=
  base64Encode (utf8Encode (jsonStringify (.obj
    [("fid", match parseIntAuto fid with | some n => .num n | none => .null),
     ("type", .str "custody"),
     ("key", .str ("0x" ++ bytesToHex publicKey))])))

/-- Model of `createPayload`: base64 of the compact JSON `{domain}`. -/
def createPayload (domain : String) : String :=
  base64Encode (utf8Encode (jsonStringify (.obj [("domain", .str domain)])))

/-- The `header.payload` message construction both scripts use (built inline
with a template literal / `+` in the source). -/
def composeMessage (headerB64 payloadB64 : String) : String :=
  headerB64 ++ "." ++ payloadB64

/-- Model of `signMessage`: UTF-8 encode the message, Ed25519-sign it, and
render the signature as a 0x-prefixed hex string. -/
def signMessage (ed : EdEngine) (message : String) (privateKeyBytes : List Nat) : String :=
  "0x" ++ bytesToHex (ed.sign (utf8Encode message) privateKeyBytes)

/-- Model of `generateAccountAssociation` from the real-signature
generator: derive the public key, build header and payload, sign
`header.payload`, then re-parse the hex signature and store it as base64. -/
def generateAccountAssociation (ed : EdEngine) (vc : ValidConfig) : Assoc :=
  let privateKeyBytes := hexToBytes vc.privateKey
  let publicKey := ed.getPublicKey privateKeyBytes
  let header := createHeader vc.fid publicKey
  let payload := createPayload vc.domain
  let message := composeMessage header payload
  let signature := signMessage ed message privateKeyBytes
  let signatureBytes := hexToBytes signature
  { header := header, payload := payload, signature := base64Encode signatureBytes }

/-- Model of `verifySignature` from the generator: decode the header to
recover the public key, rebuild `header.payload`, base64-decode the stored
signature and call Ed25519 verification; any thrown error (undecodable
header JSON, non-string `key`) is caught and yields `false`. -/
def verifySignature (ed : EdEngine) (a : Assoc) : Bool :=
  match decodeBase64 a.header with
  | none => false
  | some headerJson =>
    match headerJson.getField "key" with
    | some (.str k) =>
      ed.verify (base64Decode a.signature)
        (utf8Encode (composeMessage a.header a.payload)) (hexToBytes k)
    | _ => false

/-- The default manifest skeleton built when the manifest file is absent,
empty or unparseable. -/
def defaultManifest (domain : String) : Json :=
  .obj [("accountAssociation", .obj []),
    ("miniapp", .obj
      [("version", .str "1"),
       ("name", .str "Farcaster Mini App"),
       ("iconUrl", .str ("https://" ++ domain ++ "/images/flux-icon-2025-08-17T06-04-24-740Z.png")),
       ("homeUrl", .str ("https://" ++ domain)),
       ("imageUrl", .str ("https://" ++ domain ++ "/images/flux-embed-2025-08-17T06-04-35-570Z.png")),
       ("buttonTitle", .str "Launch App"),
       ("splashImageUrl", .str ("https://" ++ domain ++ "/images/flux-splash-2025-08-17T06-04-46-411Z.png")),
       ("splashBackgroundColor", .str "#0ea5e9")])]

/-- Model of `loadOrCreateManifest`: `existing` is the manifest file's
content (`none` when reading throws).  An absent, empty or unparseable file
falls back to the default skeleton; a parseable file is returned as parsed. -/
def loadOrCreateManifest (existing : Option String) (domain : String) : Json :=
  match existing with
  | none => defaultManifest domain
  | some content =>
    if content = "" then defaultManifest domain
    else (jsonParse content).getD (defaultManifest domain)

/-- Outcome of one run of the generator's `main`.  `configFailure` is the
`process.exit(1)` inside `validateConfig`, before any cryptographic step;
`mergeFailure` models the caught `TypeError` when the loaded manifest is
not a JSON object so that `manifest.accountAssociation = ...` cannot be
assigned (ES modules are strict; an array-valued manifest, whose expando
property would not survive stringification, is folded into this error path
as well); `completed` carries the generated association, the self-check
result and the manifest content that `saveManifest` writes. -/
inductive RunOutcome where
  | configFailure : RunOutcome
  | mergeFailure : RunOutcome
  | completed (assoc : Assoc) (selfCheck : Bool) (saved : Json) : RunOutcome

/-- The self-check result of a run, when the run got that far. -/
def RunOutcome.selfCheckResult : RunOutcome → Option Bool
  | .completed _ b _ => some b
  | _ => none

/-- The manifest content a run of `main` hands to `saveManifest`, if any. -/
def RunOutcome.savedManifest : RunOutcome → Option Json
  | .completed _ _ m => some m
  | _ => none

/-- The association of a completed run. -/
def RunOutcome.association : RunOutcome → Option Assoc
  | .completed a _ _ => some a
  | _ => none

/-- Model of the generator's `main`: validate, generate the association,
run `verifySignature` (whose boolean result `main` does not branch on),
load or create the manifest, overwrite its `accountAssociation` field and
save.  `ed` is the imported signature engine, `existing` the manifest
file's current content. -/
def mainRun (ed : EdEngine) (cfg : Config) (existing : Option String) : RunOutcome :=
  match validateConfig cfg with
  | none => .configFailure
  | some vc =>
    let assoc := generateAccountAssociation ed vc
    let selfCheck := verifySignature ed assoc
    match loadOrCreateManifest existing vc.domain with
    | .obj fs =>
      .completed assoc selfCheck (.obj (setField fs "accountAssociation" (assocToJson assoc)))
    | _ => .mergeFailure

/-- The structured report `verifyAccountAssociation` returns when it runs
to completion. -/
structure Report where
  headerValid : Bool
  payloadValid : Bool
  domainFormatValid : Bool
  fidValid : Bool
  signatureValid : Bool
  signatureFormat : String
  canVerifySignature : Bool
  message : String
deriving DecidableEq, Repr

/-- What a call of the verifier's `verifyAccountAssociation` produces: the
bare boolean `false` from one of the three early returns, an uncaught
`TypeError` (a truthy non-string `domain` reaching `.startsWith`), or the
report object. -/
inductive VerifyOutcome where
  | earlyFalse : VerifyOutcome
  | thrown : VerifyOutcome
  | report (r : Report) : VerifyOutcome
deriving DecidableEq, Repr

/-- Decode one of the stored base64 fields and apply the `if (!x) return
false` truthiness gate. -/
def decodeTruthy (s : String) : Option Json :=
  match decodeBase64 s with
  | some v => if jsTruthy v then some v else none
  | none => none

/-- The `headerJson.key` to public-key-bytes step of the verifier: `none`
when `key` is absent or not a string (the `.replace` call throws and the
`catch` turns it into `null`). -/
def keyBytesFromHeader (headerJson : Json) : Option (List Nat) :=
  match headerJson.getField "key" with
  | some (.str k) => some (hexToBytes k)
  | _ => none

/-- Does the character list `cs` start with `ps`? -/
def listStartsWith : List Char → List Char → Bool
  | _, [] => true
  | [], _ :: _ => false
  | c :: cs, p :: ps => c = p && listStartsWith cs ps

/-- Model of `String.prototype.startsWith` with a string argument. -/
def strStartsWith (s pre : String) : Bool :=
  listStartsWith s.toList pre.toList

/-- The verifier's domain-format check
`payload.domain && !payload.domain.startsWith('http://') && !payload.domain.startsWith('https://')`:
a falsy `domain` short-circuits to a falsy flag, a truthy string is tested
for the two prefixes, and a truthy non-string reaches `.startsWith` and
throws (`none`). -/
def domainFlag (payloadJson : Json) : Option Bool :=
  match payloadJson.getField "domain" with
  | none => some false
  | some (.str s) => some (s != "" && !strStartsWith s "http://" && !strStartsWith s "https://")
  | some .null => some false
  | some (.bool false) => some false
  | some (.bool true) => none
  | some (.num n) => if n = 0 then some false else none
  | some (.arr _) => none
  | some (.obj _) => none

/-- The verifier's fid check
`header.fid && typeof header.fid === 'number' && header.fid > 0`, collapsed
to its truthiness: true exactly for a positive numeric fid. -/
def fidFlag (headerJson : Json) : Bool :=
  match headerJson.getField "fid" with
  | some (.num n) => decide (0 < n)
  | _ => false

/-- Model of `verifyAccountAssociation` from the verifier script.  Header
and payload are decoded first, each behind an `if (!x) return false` gate;
an undecodable public key is a third early `false`; then the Ed25519
verification runs inside `try` (so a throwing `verify` just leaves
`signatureValid` false — the modelled engine returns `false` directly) and
the domain and fid flags are computed before the report is assembled. -/
def verifyAccountAssociation (ed : EdEngine) (a : Assoc) : VerifyOutcome :=
  match decodeTruthy a.header with
  | none => .earlyFalse
  | some headerJson =>
    match decodeTruthy a.payload with
    | none => .earlyFalse
    | some payloadJson =>
      match keyBytesFromHeader headerJson with
      | none => .earlyFalse
      | some publicKeyBytes =>
        let signatureBytes := base64Decode a.signature
        let message := composeMessage a.header a.payload
        let signatureValid := ed.verify signatureBytes (utf8Encode message) publicKeyBytes
        match domainFlag payloadJson with
        | none => .thrown
        | some domainValid =>
          .report
            { headerValid := true
              payloadValid := true
              domainFormatValid := domainValid
              fidValid := fidFlag headerJson
              signatureValid := signatureValid
              signatureFormat := if signatureValid then "real/ed25519" else "invalid"
              canVerifySignature := true
              message := if signatureValid then
                  "Real Ed25519 signature verified successfully"
                else "Signature verification failed" }

/-- Model of `updateManifest` from the placeholder generator variant: parse
the manifest file's content, overwrite `accountAssociation`, and — when a
truthy `miniapp` field exists — also overwrite `miniapp.homeUrl` with the
configured domain, then write the document back.  `none` models
`process.exit(1)` from the catch-all (unreadable/unparseable file, or a
manifest or truthy `miniapp` that is not an object so that the strict-mode
property assignment throws; as in `mainRun`, an array value is folded into
the error path). -/
def updateManifest (assoc : Json) (domain : String) (manifestContent : String) : Option Json :=
  match jsonParse manifestContent with
  | none => none
  | some m =>
    match m with
    | .obj fs =>
      let fs2 := setField fs "accountAssociation" assoc
      match lookupField fs2 "miniapp" with
      | some mv =>
        if jsTruthy mv then
          match mv with
          | .obj mo =>
            some (.obj (setField fs2 "miniapp" (.obj (setField mo "homeUrl" (.str domain)))))
          | _ => none
        else some (.obj fs2)
      | none => some (.obj fs2)
    | _ => none

/-- A concrete stand-in for the SHA-512-based hash parameter, used to
instantiate the modelled engine in the concrete runs below. -/
def hashFixture : List Nat → Nat :=
  fun l => l.foldl (fun a b => a * 257 + b + 1) 1

/-- The modelled engine at the concrete hash. -/
def edFixture : EdEngine := nobleEd hashFixture

/-- An engine interface instance whose verification always reports failure,
used to run `main` through an execution in which the self-check comes back
false. -/
def badEd : EdEngine where
  getPublicKey _ := List.replicate 32 0
  sign _ _ := List.replicate 64 0
  verify _ _ _ := false

/-- A well-formed concrete configuration. -/
def cfgFixture : Config :=
  { fid := some "3621"
    privateKey := some "0101010101010101010101010101010101010101010101010101010101010101"
    domain := some "example.com" }

/-- The validated form of `cfgFixture`. -/
def vcFixture : ValidConfig :=
  { fid := "3621"
    privateKey := "0101010101010101010101010101010101010101010101010101010101010101"
    domain := "example.com" }

/-- The association `cfgFixture` generates under the modelled engine. -/
def assocFixture : Assoc := generateAccountAssociation edFixture vcFixture

/-- The fields of a concrete manifest whose `miniapp.homeUrl` differs from
the configured domain. -/
def manifestFieldsFixture : List (String × Json) :=
  [("accountAssociation", .obj []),
   ("miniapp", .obj [("name", .str "App"), ("homeUrl", .str "old.example")]),
   ("extra", .num 7)]

/-- That concrete manifest document, serialized the way the scripts would
read it. -/
def manifestFixture : String :=
  jsonStringify (.obj manifestFieldsFixture)

/-- The report `verifyAccountAssociation` produces on `assocFixture` under
the modelled engine: every flag true. -/
def reportFixture : Report :=
  { headerValid := true
    payloadValid := true
    domainFormatValid := true
    fidValid := true
    signatureValid := true
    signatureFormat := "real/ed25519"
    canVerifySignature := true
    message := "Real Ed25519 signature verified successfully" }

set_option maxRecDepth 8192

/-- Parsing the two hex characters `bytesToHex` emits for a byte recovers
the byte. -/
theorem hexByteRoundtrip :
    ∀ n : Fin 256, toUint8 (parseIntHex (String.mk (byteHexChars n.val))) = n.val := by
  decide

/-- No nibble renders as the character `x`. -/
theorem nibbleCharNeX : ∀ n : Fin 16, nibbleChar n.val ≠ 'x' := by decide

/-- Decoding the character of a 6-bit group recovers the group. -/
theorem charSextetRoundtrip :
    ∀ v : Fin 64, charSextet (sextetChar v.val) = some v.val := by decide

/-- No 6-bit group renders as the padding character. -/
theorem sextetCharNePad : ∀ v : Fin 64, sextetChar v.val ≠ '=' := by decide

/-- The hex chunk loop inverts `bytesToHexChars` on byte values. -/
theorem hexPairsToBytes_bytesToHexChars :
    ∀ l : List Nat, (∀ b ∈ l, b < 256) → hexPairsToBytes (bytesToHexChars l) = l := by
  intro l
  induction l with
  | nil => intro _; rfl
  | cons b rest ih =>
    intro h
    have hb : b < 256 := h b (by simp)
    have h2 := ih (fun x hx => h x (by simp [hx]))
    have hbyte := hexByteRoundtrip ⟨b, hb⟩
    have hstep : hexPairsToBytes (byteHexChars b ++ bytesToHexChars rest)
        = toUint8 (parseIntHex (String.mk (byteHexChars b)))
          :: hexPairsToBytes (bytesToHexChars rest) := rfl
    show hexPairsToBytes (byteHexChars b ++ bytesToHexChars rest) = b :: rest
    rw [hstep, hbyte, h2]

/-- `strip0xChars` leaves any list alone whose second character is not `x`. -/
theorem strip0xChars_of_ne (c1 c2 : Char) (r : List Char) (h : c2 ≠ 'x') :
    strip0xChars (c1 :: c2 :: r) = c1 :: c2 :: r := by
  unfold strip0xChars
  split
  · simp_all
  · rfl

/-- `bytesToHexChars` has two characters per byte. -/
theorem bytesToHexChars_length :
    ∀ l : List Nat, (bytesToHexChars l).length = 2 * l.length := by
  intro l
  induction l with
  | nil => rfl
  | cons b rest ih =>
    have h2 : (byteHexChars b).length = 2 := rfl
    show (byteHexChars b ++ bytesToHexChars rest).length = 2 * (b :: rest).length
    rw [List.length_append, h2, ih, List.length_cons]
    omega

/-- One step of the forgiving base64 scan on a valid, non-padding
character. -/
theorem base64Sextets_cons_valid (c : Char) (cs : List Char) (v : Nat)
    (hne : c ≠ '=') (hv : charSextet c = some v) :
    base64Sextets (c :: cs) = v :: base64Sextets cs := by
  have h1 : base64Sextets (c :: cs) =
      if c = '=' then []
      else
        match charSextet c with
        | some v => v :: base64Sextets cs
        | none => base64Sextets cs := rfl
  rw [h1, if_neg hne, hv]

/-- Decoding inverts encoding for the base64 codec on byte values. -/
theorem sextets_decode_encode :
    ∀ l : List Nat, (∀ b ∈ l, b < 256) →
      sextetsToBytes (base64Sextets (base64EncodeChars l)) = l
  | [], _ => rfl
  | [b1], h => by
    have hb1 : b1 < 256 := h b1 (by simp)
    show sextetsToBytes (base64Sextets
      [sextetChar (b1 / 4), sextetChar (b1 % 4 * 16), '=', '=']) = [b1]
    rw [base64Sextets_cons_valid _ _ _ (sextetCharNePad ⟨b1 / 4, by omega⟩)
        (charSextetRoundtrip ⟨b1 / 4, by omega⟩),
      base64Sextets_cons_valid _ _ _ (sextetCharNePad ⟨b1 % 4 * 16, by omega⟩)
        (charSextetRoundtrip ⟨b1 % 4 * 16, by omega⟩)]
    show sextetsToBytes [b1 / 4, b1 % 4 * 16] = [b1]
    show [b1 / 4 * 4 + b1 % 4 * 16 / 16] = [b1]
    have : b1 / 4 * 4 + b1 % 4 * 16 / 16 = b1 := by omega
    rw [this]
  | [b1, b2], h => by
    have hb1 : b1 < 256 := h b1 (by simp)
    have hb2 : b2 < 256 := h b2 (by simp)
    show sextetsToBytes (base64Sextets
      [sextetChar (b1 / 4), sextetChar (b1 % 4 * 16 + b2 / 16),
       sextetChar (b2 % 16 * 4), '=']) = [b1, b2]
    rw [base64Sextets_cons_valid _ _ _ (sextetCharNePad ⟨b1 / 4, by omega⟩)
        (charSextetRoundtrip ⟨b1 / 4, by omega⟩),
      base64Sextets_cons_valid _ _ _ (sextetCharNePad ⟨b1 % 4 * 16 + b2 / 16, by omega⟩)
        (charSextetRoundtrip ⟨b1 % 4 * 16 + b2 / 16, by omega⟩),
      base64Sextets_cons_valid _ _ _ (sextetCharNePad ⟨b2 % 16 * 4, by omega⟩)
        (charSextetRoundtrip ⟨b2 % 16 * 4, by omega⟩)]
    show sextetsToBytes [b1 / 4, b1 % 4 * 16 + b2 / 16, b2 % 16 * 4] = [b1, b2]
    show [b1 / 4 * 4 + (b1 % 4 * 16 + b2 / 16) / 16,
      (b1 % 4 * 16 + b2 / 16) % 16 * 16 + b2 % 16 * 4 / 4] = [b1, b2]
    have e1 : b1 / 4 * 4 + (b1 % 4 * 16 + b2 / 16) / 16 = b1 := by omega
    have e2 : (b1 % 4 * 16 + b2 / 16) % 16 * 16 + b2 % 16 * 4 / 4 = b2 := by omega
    rw [e1, e2]
  | b1 :: b2 :: b3 :: rest, h => by
    have hb1 : b1 < 256 := h b1 (by simp)
    have hb2 : b2 < 256 := h b2 (by simp)
    have hb3 : b3 < 256 := h b3 (by simp)
    have ih := sextets_decode_encode rest (fun x hx => h x (by simp [hx]))
    show sextetsToBytes (base64Sextets
      (sextetChar (b1 / 4) :: sextetChar (b1 % 4 * 16 + b2 / 16) ::
        sextetChar (b2 % 16 * 4 + b3 / 64) :: sextetChar (b3 % 64) ::
        base64EncodeChars rest)) = b1 :: b2 :: b3 :: rest
    rw [base64Sextets_cons_valid _ _ _ (sextetCharNePad ⟨b1 / 4, by omega⟩)
        (charSextetRoundtrip ⟨b1 / 4, by omega⟩),
      base64Sextets_cons_valid _ _ _ (sextetCharNePad ⟨b1 % 4 * 16 + b2 / 16, by omega⟩)
        (charSextetRoundtrip ⟨b1 % 4 * 16 + b2 / 16, by omega⟩),
      base64Sextets_cons_valid _ _ _ (sextetCharNePad ⟨b2 % 16 * 4 + b3 / 64, by omega⟩)
        (charSextetRoundtrip ⟨b2 % 16 * 4 + b3 / 64, by omega⟩),
      base64Sextets_cons_valid _ _ _ (sextetCharNePad ⟨b3 % 64, by omega⟩)
        (charSextetRoundtrip ⟨b3 % 64, by omega⟩)]
    show (b1 / 4 * 4 + (b1 % 4 * 16 + b2 / 16) / 16) ::
      ((b1 % 4 * 16 + b2 / 16) % 16 * 16 + (b2 % 16 * 4 + b3 / 64) / 4) ::
      ((b2 % 16 * 4 + b3 / 64) % 4 * 64 + b3 % 64) ::
      sextetsToBytes (base64Sextets (base64EncodeChars rest)) = b1 :: b2 :: b3 :: rest
    have e1 : b1 / 4 * 4 + (b1 % 4 * 16 + b2 / 16) / 16 = b1 := by omega
    have e2 : (b1 % 4 * 16 + b2 / 16) % 16 * 16 + (b2 % 16 * 4 + b3 / 64) / 4 = b2 := by
      omega
    have e3 : (b2 % 16 * 4 + b3 / 64) % 4 * 64 + b3 % 64 = b3 := by omega
    rw [e1, e2, e3, ih]

/-- Base64 decoding inverts base64 encoding on byte sequences. -/
theorem base64Decode_base64Encode (l : List Nat) (h : ∀ b ∈ l, b < 256) :
    base64Decode (base64Encode l) = l :=
  sextets_decode_encode l h

/-- The little-endian rendering is `k` bytes wide. -/
theorem natToBytesLE_length : ∀ k n : Nat, (natToBytesLE k n).length = k
  | 0, _ => rfl
  | k + 1, n => by
    show (n % 256 :: natToBytesLE k (n / 256)).length = k + 1
    rw [List.length_cons, natToBytesLE_length k (n / 256)]

/-- Every entry of the little-endian rendering is a byte value. -/
theorem natToBytesLE_lt : ∀ k n : Nat, ∀ b ∈ natToBytesLE k n, b < 256
  | 0, _, b, hb => by simp [natToBytesLE] at hb
  | k + 1, n, b, hb => by
    rw [show natToBytesLE (k + 1) n = n % 256 :: natToBytesLE k (n / 256) from rfl] at hb
    rcases List.mem_cons.mp hb with h | h
    · omega
    · exact natToBytesLE_lt k (n / 256) b h

/-- Reading back the little-endian rendering recovers the number when it
fits. -/
theorem bytesToNatLE_natToBytesLE :
    ∀ k n : Nat, n < 256 ^ k → bytesToNatLE (natToBytesLE k n) = n
  | 0, n, h => by
    have : n = 0 := by simpa using h
    simp [this, natToBytesLE, bytesToNatLE]
  | k + 1, n, h => by
    show n % 256 + 256 * bytesToNatLE (natToBytesLE k (n / 256)) = n
    have hdiv : n / 256 < 256 ^ k := by
      have h2 : n < 256 * 256 ^ k := by
        calc n < 256 ^ (k + 1) := h
        _ = 256 * 256 ^ k := by ring
      exact Nat.div_lt_of_lt_mul h2
    rw [bytesToNatLE_natToBytesLE k (n / 256) hdiv]
    omega

/-- The subgroup order is below `256^32`, so scalars fit in 32 bytes. -/
theorem edOrder_lt_pow : edOrder < 256 ^ 32 := by decide

/-- Scalar decoding inverts scalar encoding. -/
theorem decodeScalar_encodeScalar (x : EdScalar) : decodeScalar (encodeScalar x) = x := by
  unfold decodeScalar encodeScalar
  have hx : x.val < 256 ^ 32 := lt_trans (ZMod.val_lt x) edOrder_lt_pow
  rw [bytesToNatLE_natToBytesLE 32 x.val hx]
  exact ZMod.natCast_rightInverse x

/-- The modelled engine's signatures are 64 bytes of byte values, and its
public keys 32. -/
theorem nobleEd_sign_length (H : List Nat → Nat) (msg priv : List Nat) :
    ((nobleEd H).sign msg priv).length = 64 ∧
      (∀ b ∈ (nobleEd H).sign msg priv, b < 256) ∧
      ((nobleEd H).getPublicKey priv).length = 32 := by
  refine ⟨?_, ?_, ?_⟩
  · show (encodeScalar _ ++ encodeScalar _).length = 64
    rw [List.length_append]
    unfold encodeScalar
    rw [natToBytesLE_length, natToBytesLE_length]
  · intro b hb
    rcases List.mem_append.mp hb with h | h
    · exact natToBytesLE_lt _ _ b h
    · exact natToBytesLE_lt _ _ b h
  · show (encodeScalar _).length = 32
    unfold encodeScalar
    rw [natToBytesLE_length]

/-- The Ed25519 verification equation holds for any well-formed signature
`R ‖ (r + h·s)` against the public key of `s`: the algebraic heart of the
sign/verify round trip. -/
theorem nobleEd_verify_aux (H : List Nat → Nat) (m : List Nat) (r s : EdScalar) :
    (nobleEd H).verify
      (encodeScalar r ++
        encodeScalar (r + (H (encodeScalar r ++ encodeScalar s ++ m) : EdScalar) * s))
      m (encodeScalar s) = true := by
  have hlen : ∀ x : EdScalar, (encodeScalar x).length = 32 :=
    fun x => natToBytesLE_length 32 _
  unfold nobleEd
  simp only
  split
  · rw [List.take_left' (hlen r), List.drop_left' (hlen r), decodeScalar_encodeScalar,
      decodeScalar_encodeScalar, decodeScalar_encodeScalar]
    simp
  · next hfail =>
    exfalso
    apply hfail
    simp [List.length_append, hlen]

/-- Claim C2: for every message `m` and every key pair `(priv, pub)` where
`pub` is derived from the 32-byte private key `priv`, verifying the
signature produced by `sign(m, priv)` against `m` and `pub` returns true —
the sign/verify round trip of the modelled Ed25519 engine, for every hash
parameter `H`. -/
theorem ed25519_sign_verify_roundtrip (H : List Nat → Nat) (m priv : List Nat)
    (_hpriv : priv.length = 32) :
    (nobleEd H).verify ((nobleEd H).sign m priv) m ((nobleEd H).getPublicKey priv) = true := by
  have hs : (nobleEd H).sign m priv =
      encodeScalar ((H (priv ++ m) : EdScalar)) ++
        encodeScalar ((H (priv ++ m) : EdScalar) +
          (H (encodeScalar ((H (priv ++ m) : EdScalar)) ++
              encodeScalar ((H priv : EdScalar)) ++ m) : EdScalar) *
          (H priv : EdScalar)) := rfl
  have hp : (nobleEd H).getPublicKey priv = encodeScalar ((H priv : EdScalar)) := rfl
  rw [hs, hp]
  exact nobleEd_verify_aux H m _ _

/-- Witness for C2 at a concrete hash, message and 32-byte key. -/
theorem ed25519_sign_verify_roundtrip_witness :
    (List.replicate 32 0).length = 32 ∧
      (nobleEd hashFixture).verify
        ((nobleEd hashFixture).sign [1, 2, 3] (List.replicate 32 0)) [1, 2, 3]
        ((nobleEd hashFixture).getPublicKey (List.replicate 32 0)) = true :=
  ⟨by simp,
    ed25519_sign_verify_roundtrip hashFixture [1, 2, 3] (List.replicate 32 0) (by simp)⟩

/-- Claim C8: for every byte sequence `b`, `hexToBytes (bytesToHex b) = b`,
and `bytesToHex` emits exactly 2 characters per byte. -/
theorem hexToBytes_bytesToHex_roundtrip (l : List Nat) (h : ∀ b ∈ l, b < 256) :
    hexToBytes (bytesToHex l) = l ∧ (bytesToHex l).length = 2 * l.length := by
  constructor
  · show hexPairsToBytes (strip0xChars (bytesToHexChars l)) = l
    cases l with
    | nil => rfl
    | cons b rest =>
      have hx : nibbleChar (b % 16) ≠ 'x' :=
        nibbleCharNeX ⟨b % 16, Nat.mod_lt _ (by omega)⟩
      have hshape : bytesToHexChars (b :: rest) =
          nibbleChar (b / 16 % 16) :: nibbleChar (b % 16) :: bytesToHexChars rest := rfl
      rw [hshape, strip0xChars_of_ne _ _ _ hx, ← hshape]
      exact hexPairsToBytes_bytesToHexChars _ h
  · show (bytesToHexChars l).length = 2 * l.length
    exact bytesToHexChars_length l

/-- Witness for C8 at a concrete byte sequence. -/
theorem hexToBytes_bytesToHex_roundtrip_witness :
    (∀ b ∈ [0, 255, 16], b < 256) ∧
      (hexToBytes (bytesToHex [0, 255, 16]) = [0, 255, 16] ∧
        (bytesToHex [0, 255, 16]).length = 2 * [0, 255, 16].length) :=
  ⟨by decide, hexToBytes_bytesToHex_roundtrip [0, 255, 16] (by decide)⟩

/-- The chunk loop yields one byte per full pair of characters. -/
theorem hexPairsToBytes_length : ∀ cs : List Char, (hexPairsToBytes cs).length = cs.length / 2
  | [] => rfl
  | [_] => by simp [hexPairsToBytes]
  | c1 :: c2 :: rest => by
    show (toUint8 (parseIntHex (String.mk [c1, c2])) :: hexPairsToBytes rest).length
        = (c1 :: c2 :: rest).length / 2
    rw [List.length_cons, hexPairsToBytes_length rest, List.length_cons, List.length_cons]
    omega

/-- Claim C5 (amended): `hexToBytes` never fails — for every input string it
returns a byte array of exactly `⌊n / 2⌋` bytes, `n` the length after
stripping an optional `0x`; a trailing odd character is discarded and
non-hex chunks become byte 0 (or a partially-parsed value) instead of
raising a `FormatError`. -/
theorem hexToBytes_total_length (s : String) :
    (hexToBytes s).length = (strip0x s).length / 2 := by
  show (hexPairsToBytes (strip0xChars s.toList)).length
      = (String.mk (strip0xChars s.toList)).length / 2
  rw [hexPairsToBytes_length]
  rfl

/-- Counterexample to C5 as stated: an input with a non-hex character and
an odd-length input both yield byte arrays rather than failures. -/
theorem hexToBytes_counterexample :
    hexToBytes "zz" = [0] ∧ isHexDigitJs 'z' = false ∧
      hexToBytes "abc" = [171] ∧ (strip0x "abc").length % 2 = 1 := by
  decide

/-- Re-parsing the 0x-prefixed hex rendering of bytes recovers the bytes. -/
theorem hexToBytes_0x_bytesToHex (l : List Nat) (h : ∀ b ∈ l, b < 256) :
    hexToBytes ("0x" ++ bytesToHex l) = l := by
  show hexPairsToBytes (strip0xChars ("0x" ++ bytesToHex l).toList) = l
  have hsplit : ("0x" ++ bytesToHex l).toList = '0' :: 'x' :: bytesToHexChars l := by
    show ("0x" ++ bytesToHex l).data = '0' :: 'x' :: bytesToHexChars l
    rw [String.data_append]
    rfl
  rw [hsplit]
  exact hexPairsToBytes_bytesToHexChars l h

/-- Claim C10: in the real-signature generator the intermediate encoding of
the signature is lossless — for every run (any hash parameter, any
validated configuration) the stored base64 signature decodes back to
exactly the bytes the Ed25519 engine returned for the signed message, and
those are 64 bytes, even though the signature passes through a 0x-prefixed
hex string and `hexToBytes` before base64 encoding. -/
theorem stored_signature_lossless (H : List Nat → Nat) (vc : ValidConfig) :
    base64Decode (generateAccountAssociation (nobleEd H) vc).signature =
      (nobleEd H).sign
        (utf8Encode (composeMessage
          (generateAccountAssociation (nobleEd H) vc).header
          (generateAccountAssociation (nobleEd H) vc).payload))
        (hexToBytes vc.privateKey) ∧
      ((nobleEd H).sign
        (utf8Encode (composeMessage
          (generateAccountAssociation (nobleEd H) vc).header
          (generateAccountAssociation (nobleEd H) vc).payload))
        (hexToBytes vc.privateKey)).length = 64 := by
  obtain ⟨hl, hb, -⟩ := nobleEd_sign_length H
    (utf8Encode (composeMessage
      (generateAccountAssociation (nobleEd H) vc).header
      (generateAccountAssociation (nobleEd H) vc).payload))
    (hexToBytes vc.privateKey)
  have hsig : (generateAccountAssociation (nobleEd H) vc).signature =
      base64Encode (hexToBytes ("0x" ++ bytesToHex
        ((nobleEd H).sign
          (utf8Encode (composeMessage
            (generateAccountAssociation (nobleEd H) vc).header
            (generateAccountAssociation (nobleEd H) vc).payload))
          (hexToBytes vc.privateKey)))) := rfl
  refine ⟨?_, hl⟩
  rw [hsig, hexToBytes_0x_bytesToHex _ hb]
  exact base64Decode_base64Encode _ hb

/-- Splitting at a separator character absent from both prefixes is
unambiguous. -/
theorem append_sep_inj :
    ∀ a c b d : List Char, '.' ∉ a → '.' ∉ c →
      a ++ '.' :: b = c ++ '.' :: d → a = c ∧ b = d
  | [], [], b, d, _, _, h => by simpa using h
  | [], x :: c2, b, d, _, hc, h => by
    exfalso
    apply hc
    have hx : '.' = x := by simpa using (List.cons.inj h).1
    rw [← hx]
    exact List.mem_cons_self _ _
  | x :: a2, [], b, d, ha, _, h => by
    exfalso
    apply ha
    have hx : x = '.' := by simpa using (List.cons.inj h).1
    rw [hx]
    exact List.mem_cons_self _ _
  | x :: a2, y :: c2, b, d, ha, hc, h => by
    obtain ⟨hxy, h2⟩ := List.cons.inj h
    have ih := append_sep_inj a2 c2 b d
      (fun hm => ha (List.mem_cons_of_mem _ hm))
      (fun hm => hc (List.mem_cons_of_mem _ hm)) h2
    exact ⟨by rw [hxy, ih.1], ih.2⟩

/-- Claim C9: `composeMessage` returns exactly `header ++ "." ++ payload`
(a pure function of its two arguments), and is injective on inputs that do
not contain the period separator — in particular on base64 strings. -/
theorem composeMessage_spec :
    (∀ h p : String, composeMessage h p = h ++ "." ++ p) ∧
      (∀ h1 p1 h2 p2 : String, '.' ∉ h1.toList → '.' ∉ h2.toList →
        composeMessage h1 p1 = composeMessage h2 p2 → h1 = h2 ∧ p1 = p2) := by
  constructor
  · intro h p
    rfl
  · intro h1 p1 h2 p2 hn1 hn2 heq
    have hdata : h1.data ++ '.' :: p1.data = h2.data ++ '.' :: p2.data := by
      have h3 := congrArg String.data heq
      show _
      calc h1.data ++ '.' :: p1.data = ((h1 ++ ".") ++ p1).data := by
            rw [String.data_append, String.data_append]
            simp
        _ = ((h2 ++ ".") ++ p2).data := h3
        _ = h2.data ++ '.' :: p2.data := by
            rw [String.data_append, String.data_append]
            simp
    have hinj := append_sep_inj h1.data h2.data p1.data p2.data hn1 hn2 hdata
    constructor
    · cases h1
      cases h2
      exact congrArg String.mk hinj.1
    · cases p1
      cases p2
      exact congrArg String.mk hinj.2

/-- Witness for C9 at concrete base64 header and payload strings. -/
theorem composeMessage_spec_witness :
    (composeMessage "QQ==" "Ug==" = "QQ==" ++ "." ++ "Ug==") ∧
      ('.' ∉ "QQ==".toList ∧ '.' ∉ "Qg==".toList ∧
        ("QQ==" = "Qg==" ∧ "a" = "b" → False)) ∧
      (composeMessage "QQ==" "cc" = composeMessage "QQ==" "cc" →
        "QQ==" = "QQ==" ∧ "cc" = "cc") :=
  ⟨composeMessage_spec.1 "QQ==" "Ug==",
    ⟨by decide, by decide, by decide⟩,
    composeMessage_spec.2 "QQ==" "cc" "QQ==" "cc" (by decide) (by decide)⟩

/-- Claim C6 (amended): validation's domain normalization strips exactly
one leading `http://` or `https://` and changes nothing else — the
validated domain is `stripProto` of the raw value, and `stripProto` removes
precisely one such prefix; in particular a trailing slash (or a second,
nested prefix) survives. -/
theorem validateConfig_domain_strip :
    (∀ cfg vc, validateConfig cfg = some vc →
      ∃ raw, cfg.domain = some raw ∧ vc.domain = stripProto raw) ∧
      (∀ s : String, stripProto ("http://" ++ s) = s ∧ stripProto ("https://" ++ s) = s) := by
  constructor
  · intro cfg vc h
    obtain ⟨f, p, d⟩ := cfg
    cases f with
    | none => simp [validateConfig] at h
    | some fv =>
      cases p with
      | none => simp [validateConfig] at h
      | some pv =>
        cases d with
        | none => simp [validateConfig] at h
        | some dv =>
          refine ⟨dv, rfl, ?_⟩
          simp only [validateConfig] at h
          split_ifs at h
          exact (Option.some.inj h).symm ▸ rfl
  · intro s
    constructor
    · show stripProto ("http://" ++ s) = s
      unfold stripProto
      have hd : ("http://" ++ s).toList =
          'h' :: 't' :: 't' :: 'p' :: ':' :: '/' :: '/' :: s.toList := by
        show ("http://" ++ s).data = _
        rw [String.data_append]
        rfl
      rw [hd]
      rfl
    · show stripProto ("https://" ++ s) = s
      unfold stripProto
      have hd : ("https://" ++ s).toList =
          'h' :: 't' :: 't' :: 'p' :: 's' :: ':' :: '/' :: '/' :: s.toList := by
        show ("https://" ++ s).data = _
        rw [String.data_append]
        rfl
      rw [hd]
      rfl

/-- Witness for the amended C6 at a concrete configuration and domain. -/
theorem validateConfig_domain_strip_witness :
    (∃ raw, cfgFixture.domain = some raw ∧ vcFixture.domain = stripProto raw) ∧
      (stripProto ("http://" ++ "x.com") = "x.com" ∧
        stripProto ("https://" ++ "x.com") = "x.com") :=
  ⟨validateConfig_domain_strip.1 cfgFixture vcFixture (by decide),
    validateConfig_domain_strip.2 "x.com"⟩

/-- Counterexample to C6 as stated: a domain with a trailing slash is
accepted by validation and the slash survives into the payload domain. -/
theorem validated_domain_trailing_slash :
    (validateConfig
      { fid := some "3621"
        privateKey := some "0101010101010101010101010101010101010101010101010101010101010101"
        domain := some "https://example.com/" }).map (fun vc => vc.domain)
      = some "example.com/" ∧
      "example.com/".toList.getLast? = some '/' := by
  decide

/-- Claim C7: a configuration with a missing (unset or empty) fid, private
key or domain, a fid on which `parseInt` yields `NaN`, or a private key
that is not 64 hex characters, makes the run abort in `validateConfig`
before any cryptographic work — whatever engine `ed` is plugged in, the
outcome is `configFailure`, the only outcome built without applying any of
`ed`'s operations. -/
theorem malformed_config_aborts (ed : EdEngine) (cfg : Config) (existing : Option String)
    (h : cfg.fid = none ∨ cfg.fid = some "" ∨
      cfg.privateKey = none ∨ cfg.privateKey = some "" ∨
      cfg.domain = none ∨ cfg.domain = some "" ∨
      (∃ f, cfg.fid = some f ∧ parseIntAuto f = none) ∨
      (∃ p, cfg.privateKey = some p ∧ isHex64 (strip0x p) = false)) :
    mainRun ed cfg existing = .configFailure := by
  have hv : validateConfig cfg = none := by
    obtain ⟨f, p, d⟩ := cfg
    rcases h with h | h | h | h | h | h | ⟨x, hx, hpx⟩ | ⟨x, hx, hpx⟩ <;>
      simp_all [validateConfig] <;>
      cases f <;> cases p <;> cases d <;> simp_all [validateConfig]
  unfold mainRun
  rw [hv]

/-- Witness for C7: a non-numeric fid aborts the concrete run. -/
theorem malformed_config_aborts_witness :
    mainRun edFixture
      { fid := some "abc"
        privateKey := some "0101010101010101010101010101010101010101010101010101010101010101"
        domain := some "example.com" } none = .configFailure :=
  malformed_config_aborts edFixture _ none
    (Or.inr (Or.inr (Or.inr (Or.inr (Or.inr (Or.inr
      (Or.inl ⟨"abc", rfl, by decide⟩)))))))

/-- Property assignment leaves every other key's lookup unchanged. -/
theorem lookupField_setField_ne :
    ∀ (fs : List (String × Json)) (key q : String) (v : Json), q ≠ key →
      lookupField (setField fs key v) q = lookupField fs q
  | [], key, q, v, h => by
    show (if key = q then some v else lookupField [] q) = lookupField [] q
    rw [if_neg (Ne.symm h)]
  | (k2, v2) :: rest, key, q, v, h => by
    show lookupField (if k2 = key then (key, v) :: rest else (k2, v2) :: setField rest key v) q
        = lookupField ((k2, v2) :: rest) q
    by_cases hk : k2 = key
    · rw [if_pos hk]
      show (if key = q then some v else lookupField rest q)
          = if k2 = q then some v2 else lookupField rest q
      rw [if_neg (Ne.symm h), if_neg (fun he => h ((hk ▸ he : key = q)).symm)]
    · rw [if_neg hk]
      show (if k2 = q then some v2 else lookupField (setField rest key v) q)
          = if k2 = q then some v2 else lookupField rest q
      by_cases h2 : k2 = q
      · rw [if_pos h2, if_pos h2]
      · rw [if_neg h2, if_neg h2]
        exact lookupField_setField_ne rest key q v h

/-- Property assignment makes the assigned key's lookup the new value. -/
theorem lookupField_setField_self :
    ∀ (fs : List (String × Json)) (key : String) (v : Json),
      lookupField (setField fs key v) key = some v
  | [], key, v => by
    show (if key = key then some v else lookupField [] key) = some v
    rw [if_pos rfl]
  | (k2, v2) :: rest, key, v => by
    show lookupField (if k2 = key then (key, v) :: rest else (k2, v2) :: setField rest key v) key
        = some v
    by_cases hk : k2 = key
    · rw [if_pos hk]
      show (if key = key then some v else lookupField rest key) = some v
      rw [if_pos rfl]
    · rw [if_neg hk]
      show (if k2 = key then some v2 else lookupField (setField rest key v) key) = some v
      rw [if_neg hk]
      exact lookupField_setField_self rest key v

/-- Claim C3 (amended): the real-signature generator's merge replaces only
the `accountAssociation` field and leaves every other top-level field's
lookup unchanged; the placeholder variant's `updateManifest` additionally
overwrites `miniapp.homeUrl` with the configured domain — all top-level
fields other than `accountAssociation` and `miniapp` are unchanged, and a
manifest whose `miniapp` is an object gets exactly its `homeUrl` replaced. -/
theorem merge_replaces_association_frame :
    (∀ (fs : List (String × Json)) (assoc : Json) (q : String), q ≠ "accountAssociation" →
      lookupField (setField fs "accountAssociation" assoc) q = lookupField fs q) ∧
      (∀ (content : String) (fs : List (String × Json)) (assoc : Json) (domain : String)
          (merged : Json),
        jsonParse content = some (.obj fs) →
        updateManifest assoc domain content = some merged →
        (∀ q, q ≠ "accountAssociation" → q ≠ "miniapp" →
          merged.getField q = lookupField fs q) ∧
          (∀ mo, lookupField fs "miniapp" = some (.obj mo) →
            merged.getField "miniapp" = some (.obj (setField mo "homeUrl" (.str domain))))) := by
  have hne : ("miniapp" : String) ≠ "accountAssociation" := by decide
  constructor
  · intro fs assoc q hq
    exact lookupField_setField_ne fs _ q assoc hq
  · intro content fs assoc domain merged hparse hupd
    unfold updateManifest at hupd
    rw [hparse] at hupd
    simp only at hupd
    rcases hmv : lookupField (setField fs "accountAssociation" assoc) "miniapp" with _ | mv
    · rw [hmv] at hupd
      have hm : merged = .obj (setField fs "accountAssociation" assoc) :=
        (Option.some.inj hupd).symm
      subst hm
      constructor
      · intro q hq _
        exact lookupField_setField_ne fs _ q assoc hq
      · intro mo hmo
        rw [lookupField_setField_ne fs _ _ assoc hne, hmo] at hmv
        exact absurd hmv (by simp)
    · rw [hmv] at hupd
      simp only at hupd
      by_cases ht : jsTruthy mv
      · rw [if_pos ht] at hupd
        cases mv with
        | obj mo2 =>
          have hm : merged = .obj (setField (setField fs "accountAssociation" assoc)
              "miniapp" (.obj (setField mo2 "homeUrl" (.str domain)))) :=
            (Option.some.inj hupd).symm
          subst hm
          constructor
          · intro q hq hq2
            show lookupField (setField (setField fs "accountAssociation" assoc)
                "miniapp" (.obj (setField mo2 "homeUrl" (.str domain)))) q = lookupField fs q
            rw [lookupField_setField_ne _ _ q _ hq2]
            exact lookupField_setField_ne fs _ q assoc hq
          · intro mo hmo
            rw [lookupField_setField_ne fs _ _ assoc hne, hmo] at hmv
            have hmo2 : mo2 = mo := by
              have := Option.some.inj hmv
              exact (Json.obj.inj this).symm
            subst hmo2
            show lookupField (setField (setField fs "accountAssociation" assoc)
                "miniapp" (.obj (setField mo2 "homeUrl" (.str domain)))) "miniapp"
              = some (.obj (setField mo2 "homeUrl" (.str domain)))
            exact lookupField_setField_self _ _ _
        | null => exact absurd hupd (by simp)
        | bool b => exact absurd hupd (by simp)
        | num n => exact absurd hupd (by simp)
        | str s => exact absurd hupd (by simp)
        | arr es => exact absurd hupd (by simp)
      · rw [if_neg ht] at hupd
        have hm : merged = .obj (setField fs "accountAssociation" assoc) :=
          (Option.some.inj hupd).symm
        subst hm
        constructor
        · intro q hq _
          exact lookupField_setField_ne fs _ q assoc hq
        · intro mo hmo
          rw [lookupField_setField_ne fs _ _ assoc hne, hmo] at hmv
          have hmv2 : mv = .obj mo := (Option.some.inj hmv).symm
          subst hmv2
          exact absurd rfl ht

/-- Witness for the amended C3 at the concrete manifest fixture. -/
theorem merge_replaces_association_frame_witness :
    (lookupField (setField manifestFieldsFixture "accountAssociation" Json.null) "extra"
      = lookupField manifestFieldsFixture "extra") ∧
      ((Json.obj
          [("accountAssociation", Json.null),
           ("miniapp", Json.obj [("name", Json.str "App"), ("homeUrl", Json.str "new.example")]),
           ("extra", Json.num 7)]).getField "extra"
        = lookupField manifestFieldsFixture "extra") :=
  ⟨merge_replaces_association_frame.1 manifestFieldsFixture Json.null "extra" (by decide),
    (merge_replaces_association_frame.2 manifestFixture manifestFieldsFixture Json.null
        "new.example"
        (Json.obj
          [("accountAssociation", Json.null),
           ("miniapp", Json.obj [("name", Json.str "App"), ("homeUrl", Json.str "new.example")]),
           ("extra", Json.num 7)])
        rfl rfl).1 "extra" (by decide) (by decide)⟩

/-- Counterexample to C3 as stated: `updateManifest` changes `miniapp.homeUrl`
in addition to `accountAssociation`. -/
theorem updateManifest_changes_homeUrl :
    ((updateManifest Json.null "new.example" manifestFixture).bind
        (fun m => m.getField "miniapp")).bind (fun m => m.getField "homeUrl")
      = some (.str "new.example") ∧
      ((jsonParse manifestFixture).bind
        (fun m => m.getField "miniapp")).bind (fun m => m.getField "homeUrl")
      = some (.str "old.example") ∧
      ("new.example" : String) ≠ "old.example" :=
  ⟨rfl, rfl, by decide⟩

/-- Claim C4 (amended): once header, payload and public key decode, the
report's non-signature flags do not depend on the stored signature —
replacing the signature field with any string still yields a report whose
`headerValid`, `payloadValid`, `domainFormatValid` and `fidValid` are
unchanged (only `signatureValid` reflects the new signature); but a header
that does not decode to a truthy value makes `verifyAccountAssociation`
return the bare boolean `false` with no report at all, so header, payload
and public-key failures are not reported as independent flags. -/
theorem verify_report_flags :
    (∀ (ed : EdEngine) (header payload sig1 sig2 : String) (r : Report),
      verifyAccountAssociation ed ⟨header, payload, sig1⟩ = .report r →
      ∃ r2, verifyAccountAssociation ed ⟨header, payload, sig2⟩ = .report r2 ∧
        r2.headerValid = r.headerValid ∧ r2.payloadValid = r.payloadValid ∧
        r2.domainFormatValid = r.domainFormatValid ∧ r2.fidValid = r.fidValid) ∧
      (∀ (ed : EdEngine) (a : Assoc), decodeTruthy a.header = none →
        verifyAccountAssociation ed a = .earlyFalse) := by
  constructor
  · intro ed header payload sig1 sig2 r h
    unfold verifyAccountAssociation at h ⊢
    simp only at h ⊢
    rcases h1 : decodeTruthy header with _ | hj <;> rw [h1] at h
    · exact absurd h (by simp)
    · simp only at h ⊢
      rcases h2 : decodeTruthy payload with _ | pj <;> rw [h2] at h
      · exact absurd h (by simp)
      · simp only at h ⊢
        rcases h3 : keyBytesFromHeader hj with _ | pk <;> rw [h3] at h
        · exact absurd h (by simp)
        · simp only at h ⊢
          rcases h4 : domainFlag pj with _ | dv <;> rw [h4] at h
          · exact absurd h (by simp)
          · simp only at h ⊢
            have hr := VerifyOutcome.report.inj h
            refine ⟨_, rfl, ?_, ?_, ?_, ?_⟩ <;> rw [← hr]
  · intro ed a h
    unfold verifyAccountAssociation
    rw [h]

/-- Witness for the amended C4: corrupting the stored signature of a
concretely generated association still yields a report, and a garbage
header yields the bare early `false`. -/
theorem verify_report_flags_witness :
    (∃ r2, verifyAccountAssociation edFixture
        ⟨assocFixture.header, assocFixture.payload, "AAAA"⟩ = .report r2 ∧
        r2.headerValid = reportFixture.headerValid ∧
        r2.payloadValid = reportFixture.payloadValid ∧
        r2.domainFormatValid = reportFixture.domainFormatValid ∧
        r2.fidValid = reportFixture.fidValid) ∧
      verifyAccountAssociation edFixture ⟨"!!!", "x", "y"⟩ = .earlyFalse :=
  ⟨verify_report_flags.1 edFixture assocFixture.header assocFixture.payload
      assocFixture.signature "AAAA" reportFixture rfl,
    verify_report_flags.2 edFixture ⟨"!!!", "x", "y"⟩ rfl⟩

/-- Counterexample to C4 as stated: an association whose header is not
decodable produces no report at all — the other checks are neither computed
nor reported, the call returns the plain boolean `false`. -/
theorem verify_no_report_on_bad_header :
    verifyAccountAssociation edFixture
      ⟨"!!!", assocFixture.payload, assocFixture.signature⟩ = .earlyFalse := rfl

/-- Claim C1 evidence: `main` never branches on `verifySignature`'s boolean
result.  Run through an engine whose verification reports failure, the
self-check comes back false and the manifest is still handed to
`saveManifest`, with the failing association written into its
`accountAssociation` field — there is no `IntegrityError` path in the
code. -/
theorem main_saves_despite_failed_selfcheck :
    (mainRun badEd cfgFixture none).selfCheckResult = some false ∧
      ((mainRun badEd cfgFixture none).savedManifest.bind
        (fun m => m.getField "accountAssociation"))
        = some (assocToJson (generateAccountAssociation badEd vcFixture)) :=
  ⟨rfl, rfl⟩
